import Mathlib

/-!
Shallow embedding of the Sphinx configuration module docs/conf.py of the
repository chrisjsewell/sqla-tutorials-nb.

The module consists of static configuration assignments, one assignment that
depends on the process environment (execution_show_tb), and a setup hook that
registers a custom docutils role named "paramref" whose run method builds one
literal node from the role text and the last dot-separated segment of that
text.
-/

namespace SqlaConf

/-- A docutils literal node, as built by nodes.literal(rawsource, text):
the first argument is kept as the raw source and the second as the
rendered (display) text. -/
structure Literal where
  rawsource : String
  text : String
deriving DecidableEq, Repr

/-- Python text.split on the single-character separator picked in conf.py,
acting on the character list of the string: splitting the empty string
yields one empty segment, a separator character closes the current segment,
and any other character is prepended to the first segment of the rest. -/
def splitDot : List Char → List (List Char)
  | [] => [[]]
  | c :: cs =>
    if c = '.' then [] :: splitDot cs
    else
      match splitDot cs with
      | [] => [[c]]
      | r :: rs => (c :: r) :: rs

/-- ParamRef.run from conf.py (lines 51-53):
node = nodes.literal(self.text, self.text.split(".")[-1]);
return ([node], []).
The negative index lst[-1] is modelled as List.getLast?, with none standing
for the IndexError that Python would raise on an empty list. -/
def ParamRef.run (text : String) : Option (List Literal × List String) :=
  match (splitDot text.data).getLast? with
  | some seg => some ([⟨text, String.mk seg⟩], [])
  | none => none

/-- A role handler as registered with the Sphinx application: from the role
text to the (node list, message list) result of run. -/
abbrev RoleHandler : Type := String → Option (List Literal × List String)

/-- The observable registration state of the Sphinx application handle:
the ordered list of roles added so far, each a name paired with its
handler. -/
structure SphinxApp where
  roles : List (String × RoleHandler)

/-- Sphinx app.add_role(name, role): appends one registration. -/
def add_role (app : SphinxApp) (name : String) (role : RoleHandler) : SphinxApp :=
  ⟨app.roles ++ [(name, role)]⟩

/-- setup from conf.py (lines 39-55): performs the single call
app.add_role("paramref", ParamRef()). -/
def setup (app : SphinxApp) : SphinxApp :=
  add_role app "paramref" ParamRef.run

/-- conf.py line 4. -/
def project : String := "SQLAlchemy 1.4/2.0 Tutorial"

/-- conf.py line 6. -/
def exclude_patterns : List String :=
  ["_build", "Thumbs.db", ".DS_Store", "**.ipynb_checkpoints"]

/-- conf.py line 8. -/
def extensions : List String :=
  ["myst_nb", "sphinx.ext.intersphinx", "sphinx_copybutton", "sphinx_design"]

/-- conf.py line 10. -/
def myst_enable_extensions : List String := ["colon_fence"]

/-- conf.py line 11: "READTHEDOCS" in os.environ. The process environment
is modelled as an association list of variable names and values; Python
membership on os.environ tests only the presence of the key. -/
def execution_show_tb (env : List (String × String)) : Bool :=
  env.any (fun kv => kv.fst == "READTHEDOCS")

/-- conf.py lines 13-15: a mapping from inventory name to a pair of base
URL and optional local inventory file (None in the source). -/
def intersphinx_mapping : List (String × (String × Option String)) :=
  [("sqlalchemy", ("https://docs.sqlalchemy.org/en/14/", none))]

/-- conf.py line 19. -/
def html_theme : String := "sphinx_book_theme"

/-- conf.py line 20. -/
def html_static_path : List String := ["_static"]

/-- conf.py line 21. -/
def html_css_files : List String := ["custom.css"]

/-- The nested launch_buttons mapping of conf.py lines 29-35, in field
order: notebook_interface, binderhub_url, jupyterhub_url, colab_url. -/
structure LaunchButtons where
  notebook_interface : String
  binderhub_url : String
  jupyterhub_url : String
  colab_url : String
deriving DecidableEq, Repr

/-- The html_theme_options mapping of conf.py lines 22-36, in field order:
repository_url, repository_branch, use_repository_button,
use_edit_page_button, use_issues_button, path_to_docs, launch_buttons. -/
structure ThemeOptions where
  repository_url : String
  repository_branch : String
  use_repository_button : Bool
  use_edit_page_button : Bool
  use_issues_button : Bool
  path_to_docs : String
  launch_buttons : LaunchButtons
deriving DecidableEq, Repr

/-- conf.py lines 22-36. -/
def html_theme_options : ThemeOptions :=
  ⟨"https://github.com/chrisjsewell/sqla-tutorials-nb", "main", true, true, true,
    "docs",
    ⟨"classic", "https://mybinder.org", "", "https://colab.research.google.com"⟩⟩

/-- All configuration values defined by conf.py, in source order: project,
exclude_patterns, extensions, myst_enable_extensions, execution_show_tb,
intersphinx_mapping, html_theme, html_static_path, html_css_files,
html_theme_options. -/
structure Config where
  project : String
  exclude_patterns : List String
  extensions : List String
  myst_enable_extensions : List String
  execution_show_tb : Bool
  intersphinx_mapping : List (String × (String × Option String))
  html_theme : String
  html_static_path : List String
  html_css_files : List String
  html_theme_options : ThemeOptions

/-- Evaluating the whole configuration module in a given process
environment: only execution_show_tb reads the environment. -/
def configModule (env : List (String × String)) : Config :=
  ⟨project, exclude_patterns, extensions, myst_enable_extensions,
    execution_show_tb env, intersphinx_mapping, html_theme, html_static_path,
    html_css_files, html_theme_options⟩

/-- Modelled from the spec: the repository contains a second, near-duplicate
configuration module that is not under src/. Its role renders, per the spec,
the last dot-separated segment of the role text, that is the text after the
last dot: the longest suffix containing no dot, written here as the reverse
of the longest dot-free prefix of the reversed character list. -/
def ModuleB.lastSegment (s : String) : String :=
  String.mk ((s.data.reverse.takeWhile (fun c => c != '.')).reverse)

/-- Modelled from the spec: the run method of the dummy parameter-reference
role of the second configuration module, producing one inline literal node
whose raw source is the full input and whose display text is the last
dot-separated segment, with an unconditionally empty message list. -/
def ModuleB.roleRun (text : String) : Option (List Literal × List String) :=
  some ([⟨text, ModuleB.lastSegment text⟩], [])

/-- Modelled from the spec: the setup hook of the second configuration
module registers the same single named inline role. -/
def ModuleB.setup (app : SphinxApp) : SphinxApp :=
  add_role app "paramref" ModuleB.roleRun

/-- Modelled from the spec: the second configuration module is a
near-duplicate that sets the same site metadata, so evaluating it yields the
same configuration values. -/
def ModuleB.configModule (env : List (String × String)) : Config :=
  ⟨"SQLAlchemy 1.4/2.0 Tutorial",
    ["_build", "Thumbs.db", ".DS_Store", "**.ipynb_checkpoints"],
    ["myst_nb", "sphinx.ext.intersphinx", "sphinx_copybutton", "sphinx_design"],
    ["colon_fence"],
    env.any (fun kv => kv.fst == "READTHEDOCS"),
    [("sqlalchemy", ("https://docs.sqlalchemy.org/en/14/", none))],
    "sphinx_book_theme", ["_static"], ["custom.css"],
    ⟨"https://github.com/chrisjsewell/sqla-tutorials-nb", "main", true, true, true,
      "docs",
      ⟨"classic", "https://mybinder.org", "", "https://colab.research.google.com"⟩⟩⟩

/-! ## Helper lemmas about splitDot -/

theorem splitDot_ne_nil (l : List Char) : splitDot l ≠ [] := by
  cases l with
  | nil => simp [splitDot]
  | cons c cs =>
    unfold splitDot
    by_cases hc : c = '.'
    · simp [hc]
    · simp only [hc, if_false]
      cases splitDot cs <;> simp

theorem splitDot_exists_cons (l : List Char) :
    ∃ r rs, splitDot l = r :: rs := by
  rcases h : splitDot l with _ | ⟨r, rs⟩
  · exact absurd h (splitDot_ne_nil l)
  · exact ⟨r, rs, rfl⟩

/-- A dot-free list splits into the single segment that is the list itself,
and a list containing a dot splits into at least two segments. -/
theorem splitDot_cases (l : List Char) :
    ('.' ∉ l ∧ splitDot l = [l]) ∨
    ('.' ∈ l ∧ ∃ r r' rs, splitDot l = r :: r' :: rs) := by
  induction l with
  | nil => exact Or.inl ⟨by simp, rfl⟩
  | cons c cs ih =>
    by_cases hc : c = '.'
    · subst hc
      refine Or.inr ⟨List.mem_cons_self _ _, ?_⟩
      obtain ⟨r, rs, hr⟩ := splitDot_exists_cons cs
      exact ⟨[], r, rs, by simp [splitDot, hr]⟩
    · rcases ih with ⟨hmem, heq⟩ | ⟨hmem, r, r', rs, heq⟩
      · refine Or.inl ⟨?_, ?_⟩
        · intro hm
          rcases List.mem_cons.mp hm with h1 | h2
          · exact hc h1.symm
          · exact hmem h2
        · simp [splitDot, hc, heq]
      · refine Or.inr ⟨List.mem_cons_of_mem _ hmem, ?_⟩
        exact ⟨c :: r, r', rs, by simp [splitDot, hc, heq]⟩

theorem takeWhile_append_dot (xs : List Char) :
    (xs ++ ['.']).takeWhile (fun c => c != '.') =
    xs.takeWhile (fun c => c != '.') := by
  induction xs with
  | nil => simp [List.takeWhile]
  | cons x xs ih =>
    by_cases hx : x = '.'
    · simp [List.takeWhile, hx]
    · simp [List.takeWhile, hx, ih]

theorem takeWhile_append_of_mem (xs ys : List Char) (h : '.' ∈ xs) :
    (xs ++ ys).takeWhile (fun c => c != '.') =
    xs.takeWhile (fun c => c != '.') := by
  induction xs with
  | nil => simp at h
  | cons x xs ih =>
    by_cases hx : x = '.'
    · simp [List.takeWhile, hx]
    · rcases List.mem_cons.mp h with h1 | h2
      · exact absurd h1.symm hx
      · simp [List.takeWhile, hx, ih h2]

theorem takeWhile_of_not_mem (xs : List Char) (h : '.' ∉ xs) :
    xs.takeWhile (fun c => c != '.') = xs := by
  induction xs with
  | nil => rfl
  | cons x xs ih =>
    have hx : x ≠ '.' := fun he => h (he ▸ List.mem_cons_self _ _)
    have hxs : '.' ∉ xs := fun hm => h (List.mem_cons_of_mem _ hm)
    have hb : (x != '.') = true := bne_iff_ne.mpr hx
    simp [List.takeWhile, hb, ih hxs]

/-- The last segment of splitDot is the longest dot-free suffix of the
input, expressed through reverse and takeWhile. -/
theorem splitDot_getLast (l : List Char) :
    (splitDot l).getLast? =
    some ((l.reverse.takeWhile (fun c => c != '.')).reverse) := by
  induction l with
  | nil => rfl
  | cons c cs ih =>
    by_cases hc : c = '.'
    · subst hc
      obtain ⟨r, rs, hr⟩ := splitDot_exists_cons cs
      have h1 : splitDot ('.' :: cs) = [] :: r :: rs := by simp [splitDot, hr]
      rw [h1, List.getLast?_cons_cons, ← hr, ih]
      simp [takeWhile_append_dot]
    · rcases splitDot_cases cs with ⟨hmem, heq⟩ | ⟨hmem, r, r', rs, heq⟩
      · have h1 : splitDot (c :: cs) = [c :: cs] := by simp [splitDot, hc, heq]
        rw [h1]
        have h2 : '.' ∉ (cs.reverse ++ [c]) := by
          intro hm
          rcases List.mem_append.mp hm with hm1 | hm2
          · exact hmem (List.mem_reverse.mp hm1)
          · simp at hm2; exact hc hm2.symm
        simp [takeWhile_of_not_mem _ h2]
      · have h1 : splitDot (c :: cs) = (c :: r) :: r' :: rs := by
          simp [splitDot, hc, heq]
        rw [h1, List.getLast?_cons_cons]
        have h2 : (splitDot cs).getLast? = (r' :: rs).getLast? := by
          rw [heq, List.getLast?_cons_cons]
        rw [← h2, ih]
        have h3 : '.' ∈ cs.reverse := List.mem_reverse.mpr hmem
        simp [takeWhile_append_of_mem _ [c] h3]

/-- run, evaluated: for every text it returns one node carrying the full
text as raw source and the last segment as display text, with an empty
message list. -/
theorem ParamRef.run_eq (text : String) :
    ParamRef.run text =
    some ([⟨text, ModuleB.lastSegment text⟩], []) := by
  unfold ParamRef.run
  rw [splitDot_getLast]
  rfl

theorem mk_data (s : String) : String.mk s.data = s := by
  obtain ⟨l⟩ := s
  rfl

/-! ## Claim theorems -/

/-- C1: for every input text, the run method of the paramref role returns a
literal node whose raw source is the full input and whose display text is
the last element of splitting the input on the dot character; in particular
"Engine.connect" yields display text "connect" with raw source
"Engine.connect", and "a.b.c.d" yields display text "d". -/
theorem paramref_last_segment :
    (∀ text : String, ∃ seg : List Char,
      (splitDot text.data).getLast? = some seg ∧
      ParamRef.run text = some ([⟨text, String.mk seg⟩], [])) ∧
    ParamRef.run "Engine.connect" = some ([⟨"Engine.connect", "connect"⟩], []) ∧
    ParamRef.run "a.b.c.d" = some ([⟨"a.b.c.d", "d"⟩], []) := by
  refine ⟨?_, by decide, by decide⟩
  intro text
  refine ⟨_, splitDot_getLast text.data, ?_⟩
  unfold ParamRef.run
  rw [splitDot_getLast]

/-- C2: for every input text, run succeeds (never raises) and returns a pair
of a one-element node list and an empty message list. -/
theorem paramref_one_node_no_messages (text : String) :
    ∃ node : Literal, ParamRef.run text = some ([node], []) :=
  ⟨_, ParamRef.run_eq text⟩

/-- C3: for every input containing no dot, the display text of the produced
node equals the whole input, and the raw source is the input as well. -/
theorem paramref_no_dot (text : String) (h : '.' ∉ text.data) :
    ParamRef.run text = some ([⟨text, text⟩], []) := by
  rcases splitDot_cases text.data with ⟨_, heq⟩ | ⟨hmem, _⟩
  · unfold ParamRef.run
    rw [heq]
    simp [mk_data]
  · exact absurd hmem h

theorem paramref_no_dot_witness :
    ParamRef.run "Engine" = some ([⟨"Engine", "Engine"⟩], []) :=
  paramref_no_dot "Engine" (by decide)

/-- C4: one invocation of setup performs exactly one registration, a single
add_role call under the name "paramref" with the ParamRef run handler, and
nothing else: the resulting role list is the old one plus that single
entry. -/
theorem setup_registers_one_role (app : SphinxApp) :
    (setup app).roles = app.roles ++ [("paramref", ParamRef.run)] ∧
    (setup app).roles.length = app.roles.length + 1 := by
  refine ⟨rfl, ?_⟩
  simp [setup, add_role]

/-- C5: execution_show_tb is true iff the key READTHEDOCS is present in the
environment, whatever its value; an empty value still counts as present,
and an empty environment gives false. -/
theorem execution_show_tb_iff :
    (∀ env : List (String × String),
      execution_show_tb env = true ↔ ∃ v, ("READTHEDOCS", v) ∈ env) ∧
    execution_show_tb [("READTHEDOCS", "")] = true ∧
    execution_show_tb [] = false := by
  refine ⟨?_, rfl, rfl⟩
  intro env
  unfold execution_show_tb
  rw [List.any_eq_true]
  constructor
  · rintro ⟨⟨k, v⟩, hmem, hk⟩
    have hkey : k = "READTHEDOCS" := by simpa using hk
    subst hkey
    exact ⟨v, hmem⟩
  · rintro ⟨v, hmem⟩
    exact ⟨("READTHEDOCS", v), hmem, by simp⟩

/-- C6: the run method is deterministic and stateless: it is a pure function
of the role text, so two invocations with equal texts return equal
(node list, message list) results. -/
theorem paramref_deterministic (t₁ t₂ : String) (h : t₁ = t₂) :
    ParamRef.run t₁ = ParamRef.run t₂ := by
  rw [h]

theorem paramref_deterministic_witness :
    ParamRef.run "Engine.connect" = ParamRef.run "Engine.connect" :=
  paramref_deterministic "Engine.connect" "Engine.connect" rfl

/-- C7: every configuration value other than execution_show_tb is a fixed
constant: evaluating the module in any environment yields these literal
values, with no transformation applied. -/
theorem config_static (env : List (String × String)) :
    (configModule env).project = "SQLAlchemy 1.4/2.0 Tutorial" ∧
    (configModule env).exclude_patterns =
      ["_build", "Thumbs.db", ".DS_Store", "**.ipynb_checkpoints"] ∧
    (configModule env).extensions =
      ["myst_nb", "sphinx.ext.intersphinx", "sphinx_copybutton", "sphinx_design"] ∧
    (configModule env).myst_enable_extensions = ["colon_fence"] ∧
    (configModule env).intersphinx_mapping =
      [("sqlalchemy", ("https://docs.sqlalchemy.org/en/14/", none))] ∧
    (configModule env).html_theme = "sphinx_book_theme" ∧
    (configModule env).html_static_path = ["_static"] ∧
    (configModule env).html_css_files = ["custom.css"] ∧
    (configModule env).html_theme_options =
      ⟨"https://github.com/chrisjsewell/sqla-tutorials-nb", "main", true, true, true,
        "docs",
        ⟨"classic", "https://mybinder.org", "", "https://colab.research.google.com"⟩⟩ :=
  ⟨rfl, rfl, rfl, rfl, rfl, rfl, rfl, rfl, rfl⟩

/-- C8: the two configuration modules are equivalent: their role handlers
agree on every input text, their setup hooks agree on every application
state, and their evaluated settings agree in every environment. -/
theorem modules_equivalent :
    (∀ text, ParamRef.run text = ModuleB.roleRun text) ∧
    (∀ app, setup app = ModuleB.setup app) ∧
    (∀ env, configModule env = ModuleB.configModule env) := by
  have hrun : ∀ text, ParamRef.run text = ModuleB.roleRun text := fun text =>
    ParamRef.run_eq text
  refine ⟨hrun, ?_, fun env => rfl⟩
  intro app
  unfold setup ModuleB.setup
  have hfun : ParamRef.run = ModuleB.roleRun := funext hrun
  rw [hfun]

/-- C9: run is total: splitting any string on the dot yields a list of
positive length, so the index -1 is always in bounds and run always
returns a result. -/
theorem paramref_total (s : String) :
    0 < (splitDot s.data).length ∧ (ParamRef.run s).isSome = true := by
  constructor
  · exact List.length_pos.mpr (splitDot_ne_nil s.data)
  · rw [ParamRef.run_eq]
    rfl

/-- C10: for every input ending in a dot, and for the empty string, the
display text of the produced node is empty while the raw source keeps the
whole original input. -/
theorem paramref_trailing_dot (s : String)
    (h : (∃ t, s.data = t ++ ['.']) ∨ s = "") :
    ParamRef.run s = some ([⟨s, ""⟩], []) := by
  rcases h with ⟨t, ht⟩ | h
  · unfold ParamRef.run
    rw [splitDot_getLast, ht]
    have h2 : ((t ++ ['.']).reverse.takeWhile (fun c => c != '.')).reverse =
        ([] : List Char) := by
      rw [List.reverse_append]
      simp [List.takeWhile_cons]
    rw [h2]
  · subst h
    rfl

theorem paramref_trailing_dot_witness :
    ParamRef.run "." = some ([⟨".", ""⟩], []) :=
  paramref_trailing_dot "." (Or.inl ⟨[], by decide⟩)

end SqlaConf
